import Mathlib

/-!
Shallow embedding of the runtime scheduling and lifecycle coordination of
logtop (src/main.c): the SIGALRM-driven update scheduler, the ingestion
loop with its line-terminator normalization, option parsing, the shutdown
work (at_exit and on_sigint), and a small-step system for interleavings of
end-of-stream with a SIGINT delivery.
-/

/-- Observable side effects performed by the program, listed in program
order.  The line-oriented renderer stdout_update takes a width and a C int
flag; the flag is modelled as the Bool it denotes (nonzero = true). -/
inductive Effect where
  | installSigint
  | installSigalrm
  | restoreDefaultSigint
  | armTimer (secs : Int)
  | cursesSetup
  | cursesUpdate
  | cursesRelease
  | stdoutUpdate (width : Int) (full : Bool)
  | newLogtop (capacity : Int)
  | feed (line : List Char)
  | deleteLogtop
  | flushAll
  | reraise (sig : Int)
  deriving DecidableEq

/-- The fields of the global gl_env (env_t) used by the coordination
logic.  C ints become Int; quiet is only ever assigned 0 or 1, so it is a
Bool. -/
structure Env where
  history_size : Int
  quiet : Bool
  last_update_time : Int
  line_by_line : Int
  interval : Int
  deriving DecidableEq

/-- update_display (main.c:53-68), the SIGALRM handler, as a function of
the environment and the current clock reading; it returns the updated
environment and the effects performed.  Mirrors the source: in quiet mode
it returns at once; if now is before last_update_time + interval it
returns; otherwise it stores now, redraws — stdout_update(line_by_line, 1)
when line_by_line is nonzero, else curses_update() — and calls alarm(1). -/
def update_display (e : Env) (now : Int) : Env × List Effect :=
  if e.quiet then (e, [])
  else if now < e.last_update_time + e.interval then (e, [])
  else
    ({ e with last_update_time := now },
      (if e.line_by_line ≠ 0 then [Effect.stdoutUpdate e.line_by_line true]
       else [Effect.cursesUpdate]) ++ [Effect.armTimer 1])

/-- Characters stripped from the end of each line by run (main.c:80-85). -/
def eol (c : Char) : Bool := c = '\n' || c = '\r'

/-- The stripping loop of run, written on the reversed character list:
while the string is nonempty and ends in a newline or carriage return,
drop that last character. -/
def chopRev : List Char → List Char
  | [] => []
  | c :: rest => if eol c then chopRev rest else c :: rest

/-- Trailing line-terminator normalization applied to each line read. -/
def chop (s : List Char) : List Char := (chopRev s.reverse).reverse

/-- run (main.c:70-90): reads lines until end of stream; each line that
getline returns is chopped and handed to logtop_feed.  The input stream is
modelled as the list of raw lines getline yields. -/
def run (lines : List (List Char)) : List Effect :=
  lines.map (fun l => Effect.feed (chop l))

/-- Accumulator loop of C atoi over the leading decimal digits. -/
def digitsAcc : List Char → Int → Int
  | [], acc => acc
  | c :: rest, acc =>
    if '0' ≤ c ∧ c ≤ '9' then digitsAcc rest (acc * 10 + ((c.toNat : Int) - ('0'.toNat : Int)))
    else acc

/-- Whitespace characters skipped by C atoi. -/
def isSpaceC (c : Char) : Bool :=
  c = ' ' || c = '\t' || c = '\n' || c = '\x0b' || c = '\x0c' || c = '\r'

/-- C atoi on a character list: skip whitespace, optional sign, then the
leading run of digits; a string with no leading digits yields 0. -/
def atoiChars : List Char → Int
  | [] => 0
  | c :: rest =>
    if isSpaceC c then atoiChars rest
    else if c = '-' then - digitsAcc rest 0
    else if c = '+' then digitsAcc rest 0
    else digitsAcc (c :: rest) 0

/-- C atoi, as used on option arguments in parse_args. -/
def atoi (s : String) : Int := atoiChars s.data

/-- One option as delivered by getopt_long to the switch in parse_args
(main.c:148-168): the option character together with its argument where
the option takes one; unknown covers every case getopt reports with a
question mark (unrecognized option, missing argument). -/
inductive Opt where
  | size (arg : String)
  | quiet
  | help
  | version
  | lineByLine (arg : String)
  | intervalOpt (arg : String)
  | unknown
  deriving DecidableEq

/-- How parse_args can exit the process instead of returning. -/
inductive ExitKind where
  | usageSuccess
  | usageFailure
  | versionOk
  deriving DecidableEq

/-- The initialization at the top of parse_args (main.c:127-131). -/
def initEnv : Env :=
  { history_size := 0, quiet := false, last_update_time := 0,
    line_by_line := 0, interval := 1 }

/-- The getopt loop of parse_args: each option updates gl_env via atoi,
while -v, -h and unrecognized options exit the process at once. -/
def parseLoop : List Opt → Env → Except ExitKind Env
  | [], e => Except.ok e
  | o :: rest, e =>
    match o with
    | Opt.lineByLine a => parseLoop rest { e with line_by_line := atoi a }
    | Opt.quiet => parseLoop rest { e with quiet := true }
    | Opt.size a => parseLoop rest { e with history_size := atoi a }
    | Opt.intervalOpt a => parseLoop rest { e with interval := atoi a }
    | Opt.version => Except.error ExitKind.versionOk
    | Opt.help => Except.error ExitKind.usageSuccess
    | Opt.unknown => Except.error ExitKind.usageFailure

/-- Modelled from the spec: DEFAULT_HISTORY_SIZE is a build-time constant
from main.h, which is not under src/; the spec only requires a positive
default.  Its exact value is immaterial to every claim. -/
def DEFAULT_HISTORY_SIZE : Int := 10000

/-- parse_args (main.c:123-174): run the option loop, then refuse an
interactive stdin with a usage failure, then substitute the default
history size when the size is still zero. -/
def parse_args (opts : List Opt) (isattyStdin : Bool) : Except ExitKind Env :=
  match parseLoop opts initEnv with
  | Except.error k => Except.error k
  | Except.ok e =>
    if isattyStdin then Except.error ExitKind.usageFailure
    else if e.history_size = 0 then Except.ok { e with history_size := DEFAULT_HISTORY_SIZE }
    else Except.ok e

/-- at_exit (main.c:176-186) as the list of effects it performs, in
order: curses_release() when neither quiet nor line-by-line, then the
final stdout_update — (line_by_line, 1) in line-by-line mode, (10, 0)
otherwise — then delete_logtop, then fflush(NULL). -/
def at_exit (e : Env) : List Effect :=
  (if ¬e.quiet ∧ e.line_by_line = 0 then [Effect.cursesRelease] else []) ++
  [(if e.line_by_line ≠ 0 then Effect.stdoutUpdate e.line_by_line true
    else Effect.stdoutUpdate 10 false)] ++
  [Effect.deleteLogtop, Effect.flushAll]

/-- on_sigint (main.c:188-193) as the list of effects it performs: reset
SIGINT to its default disposition, run at_exit, re-raise the signal. -/
def on_sigint (e : Env) (sig : Int) : List Effect :=
  Effect.restoreDefaultSigint :: (at_exit e ++ [Effect.reraise sig])

/-- How a modelled execution of main ends. -/
inductive MainResult where
  | earlyExit (k : ExitKind)
  | finished (code : Int)
  deriving DecidableEq

/-- main (main.c:195-208) on the signal-free path, as its result and
effect trace: parse_args (exiting early on a configuration exit), then
install the SIGINT and SIGALRM handlers, alarm(1), set last_update_time
to the clock, create the engine, curses_setup() when neither quiet nor
line-by-line, run the ingestion loop, and at_exit; it returns
EXIT_SUCCESS. -/
def mainRun (opts : List Opt) (isattyStdin : Bool) (t0 : Int)
    (lines : List (List Char)) : MainResult × List Effect :=
  match parse_args opts isattyStdin with
  | Except.error k => (MainResult.earlyExit k, [])
  | Except.ok e0 =>
    let e1 : Env := { e0 with last_update_time := t0 }
    (MainResult.finished 0,
      [Effect.installSigint, Effect.installSigalrm, Effect.armTimer 1,
       Effect.newLogtop e1.history_size] ++
      (if ¬e1.quiet ∧ e1.line_by_line = 0 then [Effect.cursesSetup] else []) ++
      run lines ++ at_exit e1)

/-- Does Except hold a value rather than an exit. -/
def exOk : Except ExitKind Env → Bool
  | Except.ok _ => true
  | Except.error _ => false

/-- Number of redraw effects (a curses_update or a stdout_update call) in
an effect list. -/
def redrawCount (effs : List Effect) : Nat :=
  effs.countP (fun ef =>
    match ef with
    | Effect.cursesUpdate => true
    | Effect.stdoutUpdate _ _ => true
    | _ => false)

/-- The clock readings at which a sequence of timer ticks actually causes
a redraw, threading the environment through update_display. -/
def redrawTimes (e : Env) : List Int → List Int
  | [] => []
  | t :: ts =>
    let r := update_display e t
    if redrawCount r.2 = 0 then redrawTimes r.1 ts
    else t :: redrawTimes r.1 ts

/-- Consecutive elements of the list are at least d apart. -/
def spacedB (d : Int) : List Int → Bool
  | a :: b :: rest => decide (a + d ≤ b) && spacedB d (b :: rest)
  | _ => true

/-- Folding a sequence of timer ticks through update_display, keeping the
resulting environment. -/
def tickFold (e : Env) (ts : List Int) : Env :=
  ts.foldl (fun a t => (update_display a t).1) e

/-!
Small-step system for the interleaving of end-of-stream with SIGINT
delivery (claim C1).  The main context is reduced to the phases that
matter for shutdown: reading input; run has returned on end-of-stream but
main has not yet executed at_exit; main has executed at_exit but the
process has not yet exited; exited.  The SIGINT disposition (handler
installed vs default, main.c:198 and main.c:190) gates what a delivered
SIGINT does.  The counters record how often the final-report side effect
(the stdout_update in at_exit) and the engine release (delete_logtop) have
been performed.
-/

/-- Position of the main execution context. -/
inductive Phase where
  | reading
  | runReturned
  | atExitDone
  | exitedNormal
  | exitedSignal
  deriving DecidableEq

/-- State of the shutdown interleaving system. -/
structure Sys where
  phase : Phase
  sigintHandlerInstalled : Bool
  reports : Nat
  releases : Nat
  deriving DecidableEq

/-- Events: end-of-stream observed by getline, one step of the main
context, and a SIGINT delivery. -/
inductive Ev where
  | eofEv
  | mstep
  | sigint
  deriving DecidableEq

/-- State right after main has armed the handlers and entered run. -/
def sysInit : Sys :=
  { phase := Phase.reading, sigintHandlerInstalled := true,
    reports := 0, releases := 0 }

/-- One transition.  eofEv: getline returns -1 and run returns.  mstep:
main proceeds — it calls at_exit (performing the report and the release)
and then returns EXIT_SUCCESS.  sigint: with the handler installed,
on_sigint resets the disposition to default, runs at_exit and re-raises,
terminating the process by signal; with the default disposition the
process dies at once.  Delivery after exit is impossible. -/
def sysStep (s : Sys) : Ev → Sys
  | Ev.eofEv =>
    if s.phase = Phase.reading then { s with phase := Phase.runReturned } else s
  | Ev.mstep =>
    match s.phase with
    | Phase.runReturned =>
      { s with phase := Phase.atExitDone,
               reports := s.reports + 1, releases := s.releases + 1 }
    | Phase.atExitDone => { s with phase := Phase.exitedNormal }
    | _ => s
  | Ev.sigint =>
    match s.phase with
    | Phase.exitedNormal => s
    | Phase.exitedSignal => s
    | _ =>
      if s.sigintHandlerInstalled then
        { s with sigintHandlerInstalled := false, phase := Phase.exitedSignal,
                 reports := s.reports + 1, releases := s.releases + 1 }
      else { s with phase := Phase.exitedSignal }

/-- Execute a schedule of events from the initial state. -/
def sysExec (evs : List Ev) : Sys := evs.foldl sysStep sysInit

/-- Has the process terminated. -/
def terminatedB (s : Sys) : Bool :=
  decide (s.phase = Phase.exitedNormal) || decide (s.phase = Phase.exitedSignal)

/-- Every SIGINT in the schedule is delivered before the end-of-stream
shutdown work has run, that is, while the main context is still reading
or has just observed end-of-stream. -/
def sigintBeforeShutdownB : Sys → List Ev → Bool
  | _, [] => true
  | s, e :: rest =>
    (match e with
     | Ev.sigint =>
       decide (s.phase = Phase.reading) || decide (s.phase = Phase.runReturned)
     | _ => true) && sigintBeforeShutdownB (sysStep s e) rest

/-- Invariant of the shutdown system: releases track reports; before any
shutdown work the counters are zero and the handler is installed; once
the shutdown work has run the counters are one. -/
def SysInv (s : Sys) : Prop :=
  s.releases = s.reports ∧
  ((s.phase = Phase.reading ∨ s.phase = Phase.runReturned) →
    s.reports = 0 ∧ s.sigintHandlerInstalled = true) ∧
  ((s.phase = Phase.atExitDone ∨ s.phase = Phase.exitedNormal ∨
     s.phase = Phase.exitedSignal) → s.reports = 1)

theorem update_display_quiet (e : Env) (now : Int) (h : e.quiet = true) :
    update_display e now = (e, []) := by
  simp [update_display, h]

theorem update_display_no_redraw (e : Env) (t : Int)
    (h : redrawCount (update_display e t).2 = 0) :
    (update_display e t).1 = e := by
  by_cases hq : e.quiet = true
  · simp [update_display, hq]
  · by_cases hlt : t < e.last_update_time + e.interval
    · simp [update_display, hq, hlt]
    · exfalso
      by_cases hl : e.line_by_line = 0 <;>
        simp [update_display, hq, hlt, hl, redrawCount] at h

theorem update_display_redraw (e : Env) (t : Int)
    (h : redrawCount (update_display e t).2 ≠ 0) :
    e.quiet = false ∧ e.last_update_time + e.interval ≤ t ∧
      (update_display e t).1 = { e with last_update_time := t } := by
  by_cases hq : e.quiet = true
  · exact absurd (by simp [update_display, hq, redrawCount]) h
  · by_cases hlt : t < e.last_update_time + e.interval
    · exact absurd (by simp [update_display, hq, hlt, redrawCount]) h
    · refine ⟨by simpa using hq, by omega, ?_⟩
      simp [update_display, hq, hlt]

theorem update_display_interval_const (e : Env) (now : Int) :
    (update_display e now).1.interval = e.interval := by
  by_cases hq : e.quiet = true
  · simp [update_display, hq]
  · by_cases hlt : now < e.last_update_time + e.interval <;>
      simp [update_display, hq, hlt]

theorem update_display_last_mono (e : Env) (now : Int) (h : 1 ≤ e.interval) :
    e.last_update_time ≤ (update_display e now).1.last_update_time := by
  by_cases hq : e.quiet = true
  · simp [update_display, hq]
  · by_cases hlt : now < e.last_update_time + e.interval
    · simp [update_display, hq, hlt]
    · simp only [update_display, hq, hlt]
      simp only [Bool.false_eq_true, if_false, if_neg hlt]
      omega

theorem tickFold_last_mono : ∀ (ts : List Int) (e : Env), 1 ≤ e.interval →
    e.last_update_time ≤ (tickFold e ts).last_update_time := by
  intro ts
  induction ts with
  | nil => intro e _; exact le_refl _
  | cons t ts ih =>
    intro e he
    have h1 : e.last_update_time ≤ (update_display e t).1.last_update_time :=
      update_display_last_mono e t he
    have h2 : 1 ≤ (update_display e t).1.interval := by
      rw [update_display_interval_const]; exact he
    calc e.last_update_time ≤ (update_display e t).1.last_update_time := h1
      _ ≤ (tickFold (update_display e t).1 ts).last_update_time := ih _ h2

theorem redrawTimes_quiet : ∀ (ts : List Int) (e : Env), e.quiet = true →
    redrawTimes e ts = [] := by
  intro ts
  induction ts with
  | nil => intro e _; rfl
  | cons t ts ih =>
    intro e he
    unfold redrawTimes
    rw [update_display_quiet e t he]
    simp [redrawCount]
    exact ih e he

theorem redrawTimes_head_lb : ∀ (ts : List Int) (e : Env) (b : Int),
    (redrawTimes e ts).head? = some b →
    e.last_update_time + e.interval ≤ b := by
  intro ts
  induction ts with
  | nil => intro e b hb; simp [redrawTimes] at hb
  | cons t ts ih =>
    intro e b hb
    unfold redrawTimes at hb
    by_cases hc : redrawCount (update_display e t).2 = 0
    · rw [if_pos hc] at hb
      rw [update_display_no_redraw e t hc] at hb
      exact ih e b hb
    · rw [if_neg hc] at hb
      obtain ⟨_, hle, _⟩ := update_display_redraw e t hc
      simp at hb
      omega

theorem sysStep_inv (s : Sys) (e : Ev) (hs : SysInv s)
    (he : e = Ev.sigint → s.phase = Phase.reading ∨ s.phase = Phase.runReturned) :
    SysInv (sysStep s e) := by
  obtain ⟨h1, h2, h3⟩ := hs
  cases e <;> cases hp : s.phase <;>
    simp_all [sysStep, SysInv]

theorem sysFold_inv : ∀ (evs : List Ev) (s : Sys), SysInv s →
    sigintBeforeShutdownB s evs = true →
    SysInv (List.foldl sysStep s evs) := by
  intro evs
  induction evs with
  | nil => intro s h _; simpa using h
  | cons e rest ih =>
    intro s h hb
    simp only [sigintBeforeShutdownB, Bool.and_eq_true] at hb
    obtain ⟨hg, hrest⟩ := hb
    have he : e = Ev.sigint → s.phase = Phase.reading ∨ s.phase = Phase.runReturned := by
      intro hee; subst hee
      simp at hg
      exact hg
    exact ih (sysStep s e) (sysStep_inv s e h he) hrest

theorem parseLoop_unknown_err : ∀ (opts : List Opt) (e : Env), Opt.unknown ∈ opts →
    ∃ k, parseLoop opts e = Except.error k := by
  intro opts
  induction opts with
  | nil => intro e h; simp at h
  | cons o rest ih =>
    intro e h
    cases o with
    | size a =>
      have hm : Opt.unknown ∈ rest := by simpa using h
      simpa [parseLoop] using ih _ hm
    | quiet =>
      have hm : Opt.unknown ∈ rest := by simpa using h
      simpa [parseLoop] using ih _ hm
    | lineByLine a =>
      have hm : Opt.unknown ∈ rest := by simpa using h
      simpa [parseLoop] using ih _ hm
    | intervalOpt a =>
      have hm : Opt.unknown ∈ rest := by simpa using h
      simpa [parseLoop] using ih _ hm
    | help => exact ⟨ExitKind.usageSuccess, rfl⟩
    | version => exact ⟨ExitKind.versionOk, rfl⟩
    | unknown => exact ⟨ExitKind.usageFailure, rfl⟩

theorem cursesSetup_not_mem_run (lines : List (List Char)) :
    Effect.cursesSetup ∉ run lines := by
  simp [run]

theorem cursesRelease_not_mem_run (lines : List (List Char)) :
    Effect.cursesRelease ∉ run lines := by
  simp [run]

theorem chopRev_eq_dropWhile : ∀ l : List Char, chopRev l = l.dropWhile eol := by
  intro l
  induction l with
  | nil => rfl
  | cons c rest ih =>
    simp only [chopRev, List.dropWhile_cons]
    by_cases h : eol c <;> simp [h, ih]

theorem redrawTimes_spaced : ∀ (ts : List Int) (e : Env),
    spacedB e.interval (redrawTimes e ts) = true := by
  intro ts
  induction ts with
  | nil => intro e; rfl
  | cons t ts ih =>
    intro e
    unfold redrawTimes
    by_cases hc : redrawCount (update_display e t).2 = 0
    · rw [if_pos hc, update_display_no_redraw e t hc]
      exact ih e
    · rw [if_neg hc]
      obtain ⟨_, _, hst⟩ := update_display_redraw e t hc
      have hiv : (update_display e t).1.interval = e.interval :=
        update_display_interval_const e t
      cases hL : redrawTimes (update_display e t).1 ts with
      | nil => rfl
      | cons b rest =>
        have hhd : (redrawTimes (update_display e t).1 ts).head? = some b := by
          rw [hL]; rfl
        have hb := redrawTimes_head_lb ts _ b hhd
        rw [hst] at hb
        simp only [hst] at hL
        have htail := ih ({ e with last_update_time := t } : Env)
        rw [hL] at htail
        simp only [spacedB, hL, Bool.and_eq_true, decide_eq_true_eq]
        constructor
        · simpa using hb
        · simpa using htail

/-- C1 (as stated, refuted): end-of-stream followed by a SIGINT delivered
after main has run at_exit but before the process has exited performs the
final report and the resource release twice, because the end-of-stream
path never restores the default SIGINT disposition before running the
shutdown work. -/
theorem C1_double_shutdown_cex :
    (sysExec [Ev.eofEv, Ev.mstep, Ev.sigint]).reports = 2 ∧
    (sysExec [Ev.eofEv, Ev.mstep, Ev.sigint]).releases = 2 ∧
    terminatedB (sysExec [Ev.eofEv, Ev.mstep, Ev.sigint]) = true := by
  decide

/-- C1 (amended): for every interleaving in which each SIGINT is delivered
before the end-of-stream shutdown work has run — while the loop is still
reading or has just observed end-of-stream — the final-report side effect
and the resource release occur at most once, and exactly once in every
terminating execution. -/
theorem C1_shutdown_exactly_once_before_exit (evs : List Ev)
    (h : sigintBeforeShutdownB sysInit evs = true) :
    (sysExec evs).reports ≤ 1 ∧ (sysExec evs).releases ≤ 1 ∧
      (terminatedB (sysExec evs) = true →
        (sysExec evs).reports = 1 ∧ (sysExec evs).releases = 1) := by
  have h0 : SysInv sysInit := by
    refine ⟨rfl, fun _ => ⟨rfl, rfl⟩, ?_⟩
    intro hc
    rcases hc with hc | hc | hc <;> simp [sysInit] at hc
  have hinv : SysInv (sysExec evs) := sysFold_inv evs sysInit h0 h
  obtain ⟨h1, h2, h3⟩ := hinv
  have hle : (sysExec evs).reports ≤ 1 := by
    cases hp : (sysExec evs).phase with
    | reading => have := (h2 (Or.inl hp)).1; omega
    | runReturned => have := (h2 (Or.inr hp)).1; omega
    | atExitDone => have := h3 (Or.inl hp); omega
    | exitedNormal => have := h3 (Or.inr (Or.inl hp)); omega
    | exitedSignal => have := h3 (Or.inr (Or.inr hp)); omega
  refine ⟨hle, by rw [h1]; exact hle, ?_⟩
  intro ht
  simp [terminatedB] at ht
  have hrep : (sysExec evs).reports = 1 := by
    rcases ht with ht | ht
    · exact h3 (Or.inr (Or.inl ht))
    · exact h3 (Or.inr (Or.inr ht))
  exact ⟨hrep, by rw [h1]; exact hrep⟩

theorem C1_shutdown_exactly_once_before_exit_witness :
    sigintBeforeShutdownB sysInit [Ev.eofEv, Ev.mstep, Ev.mstep] = true ∧
    (sysExec [Ev.eofEv, Ev.mstep, Ev.mstep]).reports = 1 ∧
    (sysExec [Ev.eofEv, Ev.mstep, Ev.mstep]).releases = 1 := by
  have h := C1_shutdown_exactly_once_before_exit
    [Ev.eofEv, Ev.mstep, Ev.mstep] (by decide)
  exact ⟨by decide, h.2.2 (by decide)⟩

/-- C2 (as stated, refuted): on a timer tick in quiet mode the handler
returns before the alarm(1) call, so the timer is not re-armed — the
handler performs no effect at all. -/
theorem C2_quiet_tick_rearm_cex :
    Effect.armTimer 1 ∉
      (update_display
        { history_size := 100, quiet := true, last_update_time := 0,
          line_by_line := 0, interval := 1 } 5).2 ∧
    (update_display
      { history_size := 100, quiet := true, last_update_time := 0,
        line_by_line := 0, interval := 1 } 5).2 = [] := by
  decide

/-- C2 (amended): on each timer tick with quiet mode set the handler
performs no redraw and does not re-arm the timer: it returns with no
side effect and an unchanged environment, so no further tick fires after
the first one in quiet mode. -/
theorem C2_quiet_tick_noop (e : Env) (now : Int) (h : e.quiet = true) :
    update_display e now = (e, []) ∧
      redrawCount (update_display e now).2 = 0 ∧
      Effect.armTimer 1 ∉ (update_display e now).2 := by
  have hq := update_display_quiet e now h
  refine ⟨hq, ?_, ?_⟩ <;> simp [hq, redrawCount]

theorem C2_quiet_tick_noop_witness :
    update_display
        { history_size := 100, quiet := true, last_update_time := 0,
          line_by_line := 0, interval := 1 } 5 =
      ({ history_size := 100, quiet := true, last_update_time := 0,
         line_by_line := 0, interval := 1 }, []) := by
  have h := C2_quiet_tick_noop
    { history_size := 100, quiet := true, last_update_time := 0,
      line_by_line := 0, interval := 1 } 5 rfl
  exact h.1

/-- C3: when the shutdown runs via SIGINT, its effects are, in strict
order: restore the default SIGINT disposition, release the interactive
renderer when neither quiet nor line-by-line, emit exactly one final
report — stdout_update(line_by_line, 1) in line-by-line mode, else
stdout_update(10, 0) — release the engine, flush all buffered output, and
only then re-raise the original signal; the trace is independent of the
last-redraw timestamp, and on normal end-of-input main instead returns
exit status 0. -/
theorem C3_sigint_shutdown_order (e : Env) (sig t t' : Int)
    (opts : List Opt) (tty : Bool) (t0 : Int) (lines : List (List Char)) :
    on_sigint e sig =
      [Effect.restoreDefaultSigint] ++
      (if ¬e.quiet ∧ e.line_by_line = 0 then [Effect.cursesRelease] else []) ++
      [(if e.line_by_line ≠ 0 then Effect.stdoutUpdate e.line_by_line true
        else Effect.stdoutUpdate 10 false)] ++
      [Effect.deleteLogtop] ++ [Effect.flushAll] ++ [Effect.reraise sig] ∧
    redrawCount (on_sigint e sig) = 1 ∧
    on_sigint { e with last_update_time := t } sig =
      on_sigint { e with last_update_time := t' } sig ∧
    (on_sigint e sig).getLast? = some (Effect.reraise sig) ∧
    (∀ e0, parse_args opts tty = Except.ok e0 →
      (mainRun opts tty t0 lines).1 = MainResult.finished 0) := by
  refine ⟨?_, ?_, rfl, ?_, ?_⟩
  · simp [on_sigint, at_exit]
  · by_cases hq : e.quiet = true <;> by_cases h2 : e.line_by_line = 0 <;>
      simp [on_sigint, at_exit, redrawCount, hq, h2]
  · have hsplit : on_sigint e sig =
        (Effect.restoreDefaultSigint :: at_exit e) ++ [Effect.reraise sig] := by
      simp [on_sigint]
    rw [hsplit, List.getLast?_concat]
  · intro e0 h0
    simp [mainRun, h0]

theorem C3_sigint_shutdown_order_witness :
    (on_sigint
        { history_size := 100, quiet := false, last_update_time := 7,
          line_by_line := 0, interval := 1 } 2).getLast? =
      some (Effect.reraise 2) ∧
    (mainRun [] false 0 []).1 = MainResult.finished 0 := by
  have h := C3_sigint_shutdown_order
    { history_size := 100, quiet := false, last_update_time := 7,
      line_by_line := 0, interval := 1 } 2 0 1 [] false 0 []
  exact ⟨h.2.2.2.1, h.2.2.2.2 _ rfl⟩

/-- C4: on a tick not in quiet mode, an elapsed time below the interval
leaves the state unchanged with no effect; an elapsed time at or past the
interval stores the clock reading, performs exactly one redraw and
re-arms the timer; consecutive redraw times over any tick sequence are at
least the interval apart, and quiet mode yields no redraw on any tick
sequence. -/
theorem C4_redraw_throttling (e : Env) (now : Int) (ts : List Int) :
    (e.quiet = true → update_display e now = (e, []) ∧ redrawTimes e ts = []) ∧
    (e.quiet = false → now < e.last_update_time + e.interval →
      update_display e now = (e, [])) ∧
    (e.quiet = false → e.last_update_time + e.interval ≤ now →
      (update_display e now).1.last_update_time = now ∧
      redrawCount (update_display e now).2 = 1 ∧
      Effect.armTimer 1 ∈ (update_display e now).2) ∧
    spacedB e.interval (redrawTimes e ts) = true := by
  refine ⟨?_, ?_, ?_, redrawTimes_spaced ts e⟩
  · intro h
    exact ⟨update_display_quiet e now h, redrawTimes_quiet ts e h⟩
  · intro hq hlt
    simp [update_display, hq, hlt]
  · intro hq hle
    have hnlt : ¬ now < e.last_update_time + e.interval := not_lt.mpr hle
    by_cases hl : e.line_by_line = 0 <;>
      simp [update_display, hq, hnlt, hl, redrawCount]

theorem C4_redraw_throttling_witness :
    (update_display
        { history_size := 100, quiet := false, last_update_time := 0,
          line_by_line := 0, interval := 2 } 5).1.last_update_time = 5 ∧
    spacedB (2 : Int)
      (redrawTimes
        { history_size := 100, quiet := false, last_update_time := 0,
          line_by_line := 0, interval := 2 } [1, 2, 5, 6, 9]) = true := by
  have h := C4_redraw_throttling
    { history_size := 100, quiet := false, last_update_time := 0,
      line_by_line := 0, interval := 2 } 5 [1, 2, 5, 6, 9]
  exact ⟨(h.2.2.1 rfl (by decide)).1, h.2.2.2⟩

/-- C5 (as stated, refuted): the periodic line-by-line redraw passes 1 —
true — as the full flag of stdout_update, not false: with
line_by_line = 3 the tick emits stdout_update(3, true) and no
stdout_update(3, false). -/
theorem C5_partial_flag_cex :
    Effect.stdoutUpdate 3 false ∉
      (update_display
        { history_size := 100, quiet := false, last_update_time := 0,
          line_by_line := 3, interval := 1 } 5).2 ∧
    Effect.stdoutUpdate 3 true ∈
      (update_display
        { history_size := 100, quiet := false, last_update_time := 0,
          line_by_line := 3, interval := 1 } 5).2 := by
  decide

/-- C5 (amended): when a periodic throttled redraw fires in line-by-line
mode, the scheduler invokes the line-oriented renderer with width equal to
the configured line_by_line count and the full flag set to true — the
same call at_exit makes for the final batch report — and then re-arms the
timer. -/
theorem C5_periodic_batch_full (e : Env) (now : Int)
    (hq : e.quiet = false) (hl : e.line_by_line ≠ 0)
    (ht : e.last_update_time + e.interval ≤ now) :
    (update_display e now).2 =
      [Effect.stdoutUpdate e.line_by_line true, Effect.armTimer 1] := by
  have hnlt : ¬ now < e.last_update_time + e.interval := not_lt.mpr ht
  simp [update_display, hq, hnlt, hl]

theorem C5_periodic_batch_full_witness :
    (update_display
        { history_size := 100, quiet := false, last_update_time := 0,
          line_by_line := 3, interval := 1 } 5).2 =
      [Effect.stdoutUpdate 3 true, Effect.armTimer 1] := by
  exact C5_periodic_batch_full
    { history_size := 100, quiet := false, last_update_time := 0,
      line_by_line := 3, interval := 1 } 5 rfl (by decide) (by decide)

/-- C6: for every line read, run feeds the chopped line, and chopping
removes exactly the maximal trailing run of carriage-return and line-feed
characters in any order and multiplicity; in particular the raw lines
"abc\r\n", "abc\n" and "abc\r" each feed the logical line "abc". -/
theorem C6_line_terminator_normalization :
    (∀ lines, run lines = lines.map (fun l => Effect.feed (chop l))) ∧
    (∀ l : List Char, chop l = List.rdropWhile (fun c => eol c) l) ∧
    run ["abc\r\n".data, "abc\n".data, "abc\r".data] =
      [Effect.feed "abc".data, Effect.feed "abc".data, Effect.feed "abc".data] := by
  refine ⟨fun lines => rfl, ?_, by decide⟩
  intro l
  simp [chop, List.rdropWhile, chopRev_eq_dropWhile]

/-- C9: run performs exactly one feed per line read, in order, and a line
consisting solely of carriage-return/line-feed characters is fed as the
empty string rather than skipped. -/
theorem C9_one_feed_per_line :
    (∀ lines, (run lines).length = lines.length) ∧
    (∀ lines, run lines = List.map (fun l => Effect.feed (chop l)) lines) ∧
    chop ['\r', '\n'] = [] ∧
    run [['\r', '\n']] = [Effect.feed []] := by
  refine ⟨fun lines => ?_, fun lines => rfl, by decide, by decide⟩
  simp [run]

/-- C7 (as stated, refuted): bad flag values are not rejected — a
negative interval is accepted and stored as is, and a non-numeric size
parses to 0 via atoi and is silently replaced by the default, with
parse_args returning normally instead of exiting with usage. -/
theorem C7_bad_values_accepted_cex :
    parse_args [Opt.intervalOpt "-5"] false =
      Except.ok { history_size := DEFAULT_HISTORY_SIZE, quiet := false,
                  last_update_time := 0, line_by_line := 0, interval := -5 } ∧
    parse_args [Opt.size "abc"] false =
      Except.ok { history_size := DEFAULT_HISTORY_SIZE, quiet := false,
                  last_update_time := 0, line_by_line := 0, interval := 1 } := by
  exact ⟨rfl, rfl⟩

/-- C7 (amended): the configuration errors the program rejects are an
unrecognized or malformed option, reported by getopt, and an interactive
stdin: each makes the program exit via usage with failure status, and any
exit from parse_args happens before any handler or timer is armed —
the main trace is empty on that path; numeric flag values themselves are
not validated. -/
theorem C7_usage_exit_paths (opts : List Opt) (tty : Bool) (t0 : Int)
    (lines : List (List Char)) :
    (tty = true → exOk (parse_args opts tty) = false) ∧
    (Opt.unknown ∈ opts → exOk (parse_args opts tty) = false) ∧
    (∀ e, parseLoop opts initEnv = Except.ok e → tty = true →
      parse_args opts tty = Except.error ExitKind.usageFailure) ∧
    (∀ k, parse_args opts tty = Except.error k →
      mainRun opts tty t0 lines = (MainResult.earlyExit k, [])) := by
  refine ⟨?_, ?_, ?_, ?_⟩
  · intro ht; subst ht
    cases hpl : parseLoop opts initEnv with
    | error k => simp [parse_args, hpl, exOk]
    | ok e => simp [parse_args, hpl, exOk]
  · intro hm
    obtain ⟨k, hk⟩ := parseLoop_unknown_err opts initEnv hm
    simp [parse_args, hk, exOk]
  · intro e he ht; subst ht
    simp [parse_args, he]
  · intro k hk
    simp [mainRun, hk]

theorem C7_usage_exit_paths_witness :
    exOk (parse_args [Opt.unknown] true) = false ∧
    mainRun [Opt.unknown] true 0 [] =
      (MainResult.earlyExit ExitKind.usageFailure, []) := by
  have h := C7_usage_exit_paths [Opt.unknown] true 0 []
  exact ⟨h.1 rfl, h.2.2.2 ExitKind.usageFailure rfl⟩

/-- C8: with a positive interval, a tick never decreases the last-redraw
timestamp; the write in main that replaces the initial 0 with a
non-negative clock reading does not decrease it either, and the timestamp
stays at or above its initial value over any tick sequence. -/
theorem C8_last_update_monotone (e : Env) (now t0 : Int) (ts : List Int)
    (hi : 1 ≤ e.interval) (h0 : 0 ≤ t0) :
    e.last_update_time ≤ (update_display e now).1.last_update_time ∧
    initEnv.last_update_time ≤ t0 ∧
    t0 ≤ (tickFold { e with last_update_time := t0 } ts).last_update_time := by
  refine ⟨update_display_last_mono e now hi, by simpa [initEnv] using h0, ?_⟩
  have h := tickFold_last_mono ts ({ e with last_update_time := t0 } : Env)
    (by simpa using hi)
  simpa using h

theorem C8_last_update_monotone_witness :
    (4 : Int) ≤ (update_display
      { history_size := 100, quiet := false, last_update_time := 4,
        line_by_line := 0, interval := 2 } 7).1.last_update_time ∧
    (3 : Int) ≤ (tickFold
      { history_size := 100, quiet := false, last_update_time := 3,
        line_by_line := 0, interval := 2 } [5, 9]).last_update_time := by
  have h := C8_last_update_monotone
    { history_size := 100, quiet := false, last_update_time := 4,
      line_by_line := 0, interval := 2 } 7 3 [5, 9] (by decide) (by decide)
  exact ⟨h.1, h.2.2⟩

/-- C10: curses_setup appears in the main trace exactly when
curses_release does, and, for any configuration parse_args accepts, the
interactive renderer is set up exactly when quiet mode is off and
line-by-line mode is off. -/
theorem C10_curses_setup_release_paired (opts : List Opt) (tty : Bool)
    (t0 : Int) (lines : List (List Char)) :
    (Effect.cursesSetup ∈ (mainRun opts tty t0 lines).2 ↔
      Effect.cursesRelease ∈ (mainRun opts tty t0 lines).2) ∧
    (∀ e, parse_args opts tty = Except.ok e →
      (Effect.cursesSetup ∈ (mainRun opts tty t0 lines).2 ↔
        (e.quiet = false ∧ e.line_by_line = 0))) := by
  cases hp : parse_args opts tty with
  | error k =>
    refine ⟨by simp [mainRun, hp], ?_⟩
    intro e he
    exact Except.noConfusion he
  | ok e0 =>
    constructor
    · by_cases hq : e0.quiet = true <;> by_cases hl : e0.line_by_line = 0 <;>
        simp [mainRun, hp, run, at_exit, hq, hl]
    · intro e he
      have he0 : e0 = e := by
        injection he
      subst he0
      by_cases hq : e0.quiet = true <;> by_cases hl : e0.line_by_line = 0 <;>
        simp [mainRun, hp, run, at_exit, hq, hl]

theorem C10_curses_setup_release_paired_witness :
    Effect.cursesSetup ∈ (mainRun [] false 0 []).2 := by
  have h := C10_curses_setup_release_paired [] false 0 []
  exact (h.2 _ rfl).mpr ⟨rfl, rfl⟩
